import Mathlib

/-!
Verification of the caching subsystem of the falcon client
(`src/client/cache.ts`): the exact-index strategy (`SimpleCache`), the
nearest-neighbor snapping strategy (`SnappingCache`), the shared
combination arithmetic (`combineRanges`) and the shared operations
`getAllCombined` / `invalidate` of the abstract `Cache` class.

Modelling conventions:
* Coordinates (pixel indices) and bucket counts are `Int`.
* A JavaScript object used as a map is an association list
  `List (String × _)` (string keys iterate in insertion order) whose
  per-dimension payload mirrors the TypeScript value.
* A method that can `throw` is `Except String _`; a method that can
  return `null` is `Option _`.
* `SnappingCache`'s `while` loop is a fuel-indexed recursion `snapLoop`;
  the fuel passed by `snapNearest` (`d.length`) dominates the initial
  `hi - lo`, and each iteration shrinks `hi - lo` by at least one, so the
  fuel never runs out (this is proved inside `snapLoop_inv`).
-/

/-- One element of a `SnappingCache` per-dimension store:
`{ index: number, data: number[] }` in the source. -/
structure Entry where
  index : Int
  data : List Int
deriving Repr, DecidableEq

/-- The value returned by `getCombined`: `{data: number[], range: Interval}`. -/
structure CombinedResult where
  data : List Int
  range : Int × Int
deriving Repr, DecidableEq

/-- `combineRanges(low, high)` from `cache.ts`: throws when the lengths
differ, otherwise fills `data[bucket] = +high[bucket] - low[bucket]` for
every `bucket < low.length` (the `console.error` on a negative entry is
output only and does not affect the returned value). -/
def combineRanges (low high : List Int) : Except String (List Int) :=
  if low.length ≠ high.length then
    Except.error "low and high have to have the same length"
  else
    Except.ok ((List.range low.length).map
      (fun bucket => high.getD bucket 0 - low.getD bucket 0))

/-- `SimpleCache`'s state: `{ [dimension: string]: { [index: number]: number[] } }`. -/
abbrev SimpleStore := List (String × List (Int × List Int))

/-- Assignment `obj[index] = data` on the inner per-dimension object of a
`SimpleCache`: overwrite when the key exists, otherwise add it. -/
def SimpleCache.setEntry (inner : List (Int × List Int)) (i : Int) (s : List Int) :
    List (Int × List Int) :=
  if inner.any (fun p => p.1 == i) then
    inner.map (fun p => if p.1 == i then (i, s) else p)
  else
    inner ++ [(i, s)]

/-- `SimpleCache.set(index, dimension, data)`. -/
def SimpleCache.set (st : SimpleStore) (i : Int) (dim : String) (s : List Int) :
    SimpleStore :=
  if st.any (fun p => p.1 == dim) then
    st.map (fun p => if p.1 == dim then (p.1, SimpleCache.setEntry p.2 i s) else p)
  else
    st ++ [(dim, SimpleCache.setEntry [] i s)]

/-- `SimpleCache.get(index, dimension)` (private): `null` unless the
dimension's object exists and holds the exact key. -/
def SimpleCache.get (st : SimpleStore) (i : Int) (dim : String) : Option (List Int) :=
  match st.find? (fun p => p.1 == dim) with
  | none => none
  | some p => (p.2.find? (fun q => q.1 == i)).map (fun q => q.2)

/-- `SimpleCache.getCombined(start, end, dimension)`. -/
def SimpleCache.getCombined (st : SimpleStore) (a b : Int) (dim : String) :
    Except String (Option CombinedResult) :=
  match SimpleCache.get st a dim with
  | none => Except.ok none
  | some low =>
    match SimpleCache.get st b dim with
    | none => Except.ok none
    | some high => (combineRanges low high).map (fun d => some ⟨d, (a, b)⟩)

/-- `SimpleCache.hasFullData(index)`: the loop over `this.dimensions`
returning `false` at the first miss. -/
def SimpleCache.hasFullData (dims : List String) (st : SimpleStore) (i : Int) : Bool :=
  dims.all (fun dim => (SimpleCache.get st i dim).isSome)

/-- `Cache.getDimensions()`: `Object.keys(this.cache)`, in insertion order. -/
def Cache.getDimensions {α : Type} (st : List (String × α)) : List String :=
  st.map (fun p => p.1)

/-- `Cache.invalidate()`: `this.cache = {}`. -/
def Cache.invalidate {α : Type} (_st : List (String × α)) : List (String × α) := []

/-- `Cache.getAllCombined(start, end)`: map `getCombined` over the store's
dimensions, keep the non-null results (`.filter(d => d)`); an exception
thrown by `getCombined` propagates. -/
def Cache.getAllCombined (dims : List String)
    (gc : String → Except String (Option CombinedResult)) :
    Except String (List (String × CombinedResult)) :=
  (dims.mapM (fun dim => (gc dim).map (fun r => (dim, r)))).map
    (fun l => l.filterMap (fun p => p.2.map (fun r => (p.1, r))))

/-- `getAllCombined` on a `SimpleCache`. -/
def SimpleCache.getAllCombined (st : SimpleStore) (a b : Int) :
    Except String (List (String × CombinedResult)) :=
  Cache.getAllCombined (Cache.getDimensions st)
    (fun dim => SimpleCache.getCombined st a b dim)

/-- `SnappingCache`'s per-dimension store:
`{ index: number, data: number[] }[]`. -/
abbrev SnapStore := List Entry

/-- `SnappingCache`'s state: dimension name to store. -/
abbrev SnapState := List (String × SnapStore)

/-- `this.cache[dimension]` for a `SnappingCache`; a missing dimension acts
as the empty store (both make the source's `get` return `null`). -/
def SnappingCache.lookupStore (st : SnapState) (dim : String) : SnapStore :=
  match st.find? (fun p => p.1 == dim) with
  | none => []
  | some p => p.2

/-- `this.cache[dimension].sort((x, y) => ascending(x.index, y.index))`:
a stable sort by ascending coordinate. -/
def SnappingCache.sortStore (d : SnapStore) : SnapStore :=
  d.mergeSort (fun x y => x.index ≤ y.index)

/-- `SnappingCache.set(index, dimension, data)`: push a new entry, then
re-sort the dimension's store. -/
def SnappingCache.set (st : SnapState) (i : Int) (dim : String) (s : List Int) :
    SnapState :=
  if st.any (fun p => p.1 == dim) then
    st.map (fun p =>
      if p.1 == dim then (p.1, SnappingCache.sortStore (p.2 ++ [⟨i, s⟩])) else p)
  else
    st ++ [(dim, SnappingCache.sortStore ([] ++ [⟨i, s⟩]))]

/-- The `while (hi - lo > 1)` binary-search loop of `SnappingCache.get`,
indexed by fuel; with fuel at least `hi - lo` the fuel never runs out. -/
def snapLoop (d : SnapStore) (t : Int) : Nat → Nat → Nat → Nat × Nat
  | 0, lo, hi => (lo, hi)
  | fuel + 1, lo, hi =>
    if hi - lo > 1 then
      let mid := (lo + hi) / 2
      if (d.getD mid ⟨0, []⟩).index < t then
        snapLoop d t fuel mid hi
      else
        snapLoop d t fuel lo mid
    else
      (lo, hi)

/-- The body of `SnappingCache.get` on one dimension's store: binary search
for the bracketing pair, then the `loIsCloser` tie-break. -/
def snapNearest (d : SnapStore) (t : Int) : Option Entry :=
  if d.length = 0 then none
  else
    let lohi := snapLoop d t d.length 0 (d.length - 1)
    let eLo := d.getD lohi.1 ⟨0, []⟩
    let eHi := d.getD lohi.2 ⟨0, []⟩
    if t - eLo.index ≤ eHi.index - t then some eLo else some eHi

/-- `SnappingCache.get(index, dimension)` (private). -/
def SnappingCache.get (st : SnapState) (i : Int) (dim : String) : Option Entry :=
  snapNearest (SnappingCache.lookupStore st dim) i

/-- `SnappingCache.getCombined(start, end, dimension)`. -/
def SnappingCache.getCombined (st : SnapState) (a b : Int) (dim : String) :
    Except String (Option CombinedResult) :=
  match SnappingCache.get st a dim with
  | none => Except.ok none
  | some low =>
    match SnappingCache.get st b dim with
    | none => Except.ok none
    | some high =>
      if low.index < high.index then
        (combineRanges low.data high.data).map
          (fun d => some ⟨d, (low.index, high.index)⟩)
      else
        Except.ok none

/-- `SnappingCache.hasFullData(index)`: every declared dimension's nearest
entry must sit exactly at `index`. -/
def SnappingCache.hasFullData (dims : List String) (st : SnapState) (i : Int) : Bool :=
  dims.all (fun dim =>
    match SnappingCache.get st i dim with
    | none => false
    | some item => item.index == i)

/-- `getAllCombined` on a `SnappingCache`. -/
def SnappingCache.getAllCombined (st : SnapState) (a b : Int) :
    Except String (List (String × CombinedResult)) :=
  Cache.getAllCombined (Cache.getDimensions st)
    (fun dim => SnappingCache.getCombined st a b dim)

/-- Run a sequence of `SnappingCache.set` calls on a fresh cache. -/
def SnappingCache.applyOps (ops : List (Int × String × List Int)) : SnapState :=
  ops.foldl (fun st op => SnappingCache.set st op.1 op.2.1 op.2.2) []

/-- A `SnappingCache` per-dimension store sorted ascending by coordinate. -/
def StoreSorted (d : SnapStore) : Prop :=
  d.Pairwise (fun x y => x.index ≤ y.index)

instance : DecidablePred StoreSorted := fun d => by
  unfold StoreSorted
  infer_instance

instance {ε α : Type} [DecidableEq ε] [DecidableEq α] : DecidableEq (Except ε α)
  | Except.error e1, Except.error e2 =>
    if h : e1 = e2 then isTrue (by rw [h])
    else isFalse (fun hc => h (Except.error.inj hc))
  | Except.error _, Except.ok _ => isFalse Except.noConfusion
  | Except.ok _, Except.error _ => isFalse Except.noConfusion
  | Except.ok a1, Except.ok a2 =>
    if h : a1 = a2 then isTrue (by rw [h])
    else isFalse (fun hc => h (Except.ok.inj hc))

/-! ### Example states used by the witnesses -/

/-- The spec's P2 example: a `SnappingCache` holding coordinates 10, 20, 30
for dimension `"d"`. -/
def snapExample : SnapState :=
  [("d", [⟨10, [1]⟩, ⟨20, [2]⟩, ⟨30, [3]⟩])]

/-- A `SimpleCache` holding one snapshot at coordinate 0 of dimension `"a"`. -/
def simpleExample : SimpleStore := [("a", [(0, [1, 2])])]

/-- The spec's §8 scenario on the exact cache: dimensions `"a"`, `"b"` with
snapshots at coordinates 0 and 100. -/
def simpleScenario : SimpleStore :=
  SimpleCache.set (SimpleCache.set (SimpleCache.set
    (SimpleCache.set [] 0 "a" [10, 20]) 100 "a" [50, 80]) 0 "b" [5, 5]) 100 "b" [9, 9]

/-- The spec's §8 scenario state on the snapping cache (the state reached by
`set(0,"a",[10,20])`, `set(100,"a",[50,80])`, `set(0,"b",[5,5])`,
`set(100,"b",[9,9])`, `set(50,"a",[30,50])`), written out literally so that
witnesses can evaluate it in the kernel. -/
def snapScenario : SnapState :=
  [("a", [⟨0, [10, 20]⟩, ⟨50, [30, 50]⟩, ⟨100, [50, 80]⟩]),
   ("b", [⟨0, [5, 5]⟩, ⟨100, [9, 9]⟩])]

/-! ### Binary search invariant for `snapLoop` -/

/-- Loop invariant of the `while (hi - lo > 1)` search: the bounds stay
bracketed and in range, the final gap is at most one, and the two side
conditions (`lo` is `0` or strictly below the target, `hi` is the last
slot or at least the target) are maintained. -/
theorem snapLoop_inv (d : SnapStore) (t : Int) :
    ∀ (fuel lo hi : Nat), hi - lo ≤ fuel → lo ≤ hi → hi < d.length →
    (lo = 0 ∨ (d.getD lo ⟨0, []⟩).index < t) →
    (hi = d.length - 1 ∨ t ≤ (d.getD hi ⟨0, []⟩).index) →
    ∃ lo' hi', snapLoop d t fuel lo hi = (lo', hi') ∧
      lo ≤ lo' ∧ lo' ≤ hi' ∧ hi' ≤ hi ∧ hi' - lo' ≤ 1 ∧ (lo < hi → lo' < hi') ∧
      (lo' = 0 ∨ (d.getD lo' ⟨0, []⟩).index < t) ∧
      (hi' = d.length - 1 ∨ t ≤ (d.getD hi' ⟨0, []⟩).index) := by
  intro fuel
  induction fuel with
  | zero =>
    intro lo hi hfuel hle hlen hinvlo hinvhi
    refine ⟨lo, hi, rfl, le_refl _, hle, le_refl _, by omega, by omega, hinvlo, hinvhi⟩
  | succ fuel ih =>
    intro lo hi hfuel hle hlen hinvlo hinvhi
    by_cases hgt : hi - lo > 1
    · have hmid_lo : lo < (lo + hi) / 2 := by omega
      have hmid_hi : (lo + hi) / 2 < hi := by omega
      simp only [snapLoop, if_pos hgt]
      by_cases hc : (d.getD ((lo + hi) / 2) ⟨0, []⟩).index < t
      · rw [if_pos hc]
        obtain ⟨lo', hi', heq, hrest⟩ :=
          ih ((lo + hi) / 2) hi (by omega) (by omega) hlen (Or.inr hc) hinvhi
        exact ⟨lo', hi', heq, by omega, hrest.2.1, hrest.2.2.1, hrest.2.2.2.1,
          fun _ => hrest.2.2.2.2.1 hmid_hi, hrest.2.2.2.2.2.1, hrest.2.2.2.2.2.2⟩
      · rw [if_neg hc]
        obtain ⟨lo', hi', heq, hrest⟩ :=
          ih lo ((lo + hi) / 2) (by omega) (by omega) (by omega) hinvlo
            (Or.inr (le_of_not_lt hc))
        exact ⟨lo', hi', heq, hrest.1, hrest.2.1, by omega, hrest.2.2.2.1,
          fun _ => hrest.2.2.2.2.1 hmid_lo, hrest.2.2.2.2.2.1, hrest.2.2.2.2.2.2⟩
    · simp only [snapLoop, if_neg hgt]
      refine ⟨lo, hi, rfl, le_refl _, hle, le_refl _, by omega, by omega, hinvlo, hinvhi⟩

/-- In a sorted store the coordinate at a smaller position is no larger. -/
theorem storeSorted_getD_le (d : SnapStore) (hsort : StoreSorted d) {i j : Nat}
    (hij : i ≤ j) (hj : j < d.length) :
    (d.getD i ⟨0, []⟩).index ≤ (d.getD j ⟨0, []⟩).index := by
  have hi : i < d.length := Nat.lt_of_le_of_lt hij hj
  rw [List.getD_eq_getElem _ _ hi, List.getD_eq_getElem _ _ hj]
  rcases Nat.eq_or_lt_of_le hij with h | h
  · subst h
    exact le_refl _
  · exact List.pairwise_iff_getElem.mp hsort i j _ hj h

/-- An in-bounds `getD` is a member of the store. -/
theorem getD_mem (d : SnapStore) (i : Nat) (hi : i < d.length) :
    d.getD i ⟨0, []⟩ ∈ d := by
  rw [List.getD_eq_getElem _ _ hi]
  exact List.getElem_mem hi

/-- Nearest-neighbor correctness of the private `SnappingCache.get` body:
on a sorted non-empty store it returns a stored entry whose coordinate
minimizes the absolute distance to the target, ties going to the lower
coordinate. -/
theorem snapNearest_nearest (d : SnapStore) (t : Int)
    (hsort : StoreSorted d) (hne : d ≠ []) :
    ∃ e, snapNearest d t = some e ∧ e ∈ d ∧
      ∀ e' ∈ d, (t - e.index).natAbs < (t - e'.index).natAbs ∨
        ((t - e.index).natAbs = (t - e'.index).natAbs ∧ e.index ≤ e'.index) := by
  have hn : 0 < d.length := List.length_pos.mpr hne
  obtain ⟨lo', hi', heq, h0lo, hlohi, hhihi, hdiff, _hstrict, hinvlo, hinvhi⟩ :=
    snapLoop_inv d t d.length 0 (d.length - 1) (by omega) (by omega) (by omega)
      (Or.inl rfl) (Or.inl rfl)
  have hhi_lt : hi' < d.length := by omega
  have hlo_lt : lo' < d.length := by omega
  have hab : (d.getD lo' ⟨0, []⟩).index ≤ (d.getD hi' ⟨0, []⟩).index :=
    storeSorted_getD_le d hsort hlohi hhi_lt
  have hsnap : snapNearest d t =
      if t - (d.getD lo' ⟨0, []⟩).index ≤ (d.getD hi' ⟨0, []⟩).index - t
      then some (d.getD lo' ⟨0, []⟩) else some (d.getD hi' ⟨0, []⟩) := by
    rw [snapNearest, if_neg (by omega), heq]
  by_cases hcl : t - (d.getD lo' ⟨0, []⟩).index ≤ (d.getD hi' ⟨0, []⟩).index - t
  · refine ⟨d.getD lo' ⟨0, []⟩, by rw [hsnap, if_pos hcl], getD_mem d lo' hlo_lt, ?_⟩
    intro e' he'
    obtain ⟨k, hk, hke⟩ := List.mem_iff_getElem.mp he'
    have hke' : d.getD k ⟨0, []⟩ = e' := by
      rw [List.getD_eq_getElem _ _ hk]
      exact hke
    rw [← hke']
    rcases le_or_lt k lo' with hklo | hkhi
    · have hca : (d.getD k ⟨0, []⟩).index ≤ (d.getD lo' ⟨0, []⟩).index :=
        storeSorted_getD_le d hsort hklo hlo_lt
      rcases hinvlo with h0 | hlt
      · have hk0 : k = lo' := by omega
        rw [hk0]
        exact Or.inr ⟨rfl, le_refl _⟩
      · omega
    · have hhik : hi' ≤ k := by omega
      have hbc : (d.getD hi' ⟨0, []⟩).index ≤ (d.getD k ⟨0, []⟩).index :=
        storeSorted_getD_le d hsort hhik hk
      omega
  · refine ⟨d.getD hi' ⟨0, []⟩, by rw [hsnap, if_neg hcl], getD_mem d hi' hhi_lt, ?_⟩
    intro e' he'
    obtain ⟨k, hk, hke⟩ := List.mem_iff_getElem.mp he'
    have hke' : d.getD k ⟨0, []⟩ = e' := by
      rw [List.getD_eq_getElem _ _ hk]
      exact hke
    rw [← hke']
    rcases le_or_lt k lo' with hklo | hkhi
    · have hca : (d.getD k ⟨0, []⟩).index ≤ (d.getD lo' ⟨0, []⟩).index :=
        storeSorted_getD_le d hsort hklo hlo_lt
      omega
    · have hhik : hi' ≤ k := by omega
      have hbc : (d.getD hi' ⟨0, []⟩).index ≤ (d.getD k ⟨0, []⟩).index :=
        storeSorted_getD_le d hsort hhik hk
      rcases hinvhi with hlast | htle
      · have hkh : k = hi' := by omega
        rw [hkh]
        exact Or.inr ⟨rfl, le_refl _⟩
      · omega

/-! ### Helper lemmas: combination arithmetic -/

/-- When the lengths agree, `combineRanges` is the elementwise difference. -/
theorem combineRanges_eq_zipWith (low high : List Int) (h : low.length = high.length) :
    combineRanges low high = Except.ok (List.zipWith (fun l r => r - l) low high) := by
  rw [combineRanges, if_neg (by omega)]
  congr 1
  apply List.ext_getElem
  · simp [List.length_zipWith, h]
  · intro n h1 h2
    have hn : n < low.length := by simpa using h1
    have hn2 : n < high.length := by omega
    simp only [List.getElem_zipWith, List.getElem_map, List.getElem_range]
    rw [List.getD_eq_getElem _ _ hn, List.getD_eq_getElem _ _ hn2]

/-- Subtracting a snapshot from itself gives the all-zero sequence. -/
theorem zipWith_sub_self (s : List Int) :
    List.zipWith (fun l r => r - l) s s = List.replicate s.length 0 := by
  induction s with
  | nil => rfl
  | cons a s ih => simp [ih, List.replicate_succ]

/-! ### Helper lemmas: association-list stores -/

/-- `find?` on a key-preserving map commutes with the map. -/
theorem find?_map_of_fst_eq {κ α : Type} [BEq κ] (g : κ × α → κ × α)
    (hg : ∀ p, (g p).1 = p.1) (st : List (κ × α)) (k : κ) :
    (st.map g).find? (fun p => p.1 == k) = (st.find? (fun p => p.1 == k)).map g := by
  induction st with
  | nil => rfl
  | cons p st ih =>
    by_cases hp : (p.1 == k) = true
    · simp [List.find?_cons, hg, hp]
    · have hfalse : (p.1 == k) = false := by simpa using hp
      simp [List.find?_cons, hg, hfalse, ih]

/-- `any` of a key test is unchanged by a key-preserving map. -/
theorem any_map_of_fst_eq {κ α : Type} [BEq κ] (g : κ × α → κ × α)
    (hg : ∀ p, (g p).1 = p.1) (l : List (κ × α)) (k : κ) :
    (l.map g).any (fun p => p.1 == k) = l.any (fun p => p.1 == k) := by
  rw [List.any_map]
  congr 1
  funext p
  simp [Function.comp, hg p]

/-- A successful `any` yields a matching `find?`. -/
theorem find?_eq_some_of_any {α : Type} (l : List α) (p : α → Bool)
    (h : l.any p = true) : ∃ x, l.find? p = some x ∧ p x = true := by
  obtain ⟨x, hx⟩ := Option.isSome_iff_exists.mp
    (List.find?_isSome.mpr (List.any_eq_true.mp h))
  exact ⟨x, hx, List.find?_some hx⟩

/-- A failed `any` means `find?` misses. -/
theorem find?_eq_none_of_not_any {α : Type} (l : List α) (p : α → Bool)
    (h : ¬ l.any p = true) : l.find? p = none :=
  List.find?_eq_none.mpr (fun x hx hpx => h (List.any_eq_true.mpr ⟨x, hx, hpx⟩))

/-! ### Helper lemmas: `SimpleCache` -/

/-- The inner overwrite map of `SimpleCache.setEntry` preserves keys. -/
theorem setEntry_fun_fst (i : Int) (s : List Int) (p : Int × List Int) :
    ((fun p : Int × List Int => if p.1 == i then (i, s) else p) p).1 = p.1 := by
  by_cases hp : (p.1 == i) = true
  · simp [hp, (eq_of_beq hp).symm]
  · simp [hp]

/-- After `setEntry`, the exact key holds the new snapshot. -/
theorem SimpleCache.setEntry_find?_same (inner : List (Int × List Int)) (i : Int)
    (s : List Int) :
    (SimpleCache.setEntry inner i s).find? (fun q => q.1 == i) = some (i, s) := by
  rw [SimpleCache.setEntry]
  by_cases h : inner.any (fun p => p.1 == i) = true
  · rw [if_pos h, find?_map_of_fst_eq _ (setEntry_fun_fst i s)]
    obtain ⟨q, hq, hqi⟩ := find?_eq_some_of_any inner _ h
    rw [hq]
    simp only [Option.map_some']
    rw [if_pos hqi]
  · rw [if_neg h, List.find?_append, find?_eq_none_of_not_any inner _ h]
    simp [List.find?_cons]

/-- The outer per-dimension update map of `SimpleCache.set` preserves keys. -/
theorem simpleSet_fun_fst (c : Int) (dim : String) (s : List Int) (p : String × List (Int × List Int)) :
    ((fun p : String × List (Int × List Int) =>
      if p.1 == dim then (p.1, SimpleCache.setEntry p.2 c s) else p) p).1 = p.1 := by
  by_cases hp : (p.1 == dim) = true
  · simp [hp]
  · simp [hp]

/-- After `SimpleCache.set`, the exact lookup at the written slot returns the
snapshot just written. -/
theorem SimpleCache.get_set_same (st : SimpleStore) (c : Int) (dim : String)
    (s : List Int) :
    SimpleCache.get (SimpleCache.set st c dim s) c dim = some s := by
  rw [SimpleCache.get, SimpleCache.set]
  by_cases h : st.any (fun p => p.1 == dim) = true
  · rw [if_pos h, find?_map_of_fst_eq _ (simpleSet_fun_fst c dim s)]
    obtain ⟨p, hp, hpd⟩ := find?_eq_some_of_any st _ h
    rw [hp]
    simp only [Option.map_some']
    rw [if_pos hpd]
    rw [SimpleCache.setEntry_find?_same]
    rfl
  · rw [if_neg h, List.find?_append, find?_eq_none_of_not_any st _ h]
    simp only [Option.none_or, List.find?_cons, beq_self_eq_true]
    rw [SimpleCache.setEntry_find?_same]
    rfl

/-- Overwriting the same inner key with the same snapshot twice equals once. -/
theorem SimpleCache.setEntry_idem (inner : List (Int × List Int)) (i : Int)
    (s : List Int) :
    SimpleCache.setEntry (SimpleCache.setEntry inner i s) i s =
      SimpleCache.setEntry inner i s := by
  by_cases h : inner.any (fun p => p.1 == i) = true
  · have hset : SimpleCache.setEntry inner i s
        = inner.map (fun p => if p.1 == i then (i, s) else p) := by
      rw [SimpleCache.setEntry, if_pos h]
    rw [hset, SimpleCache.setEntry,
      if_pos (by rw [any_map_of_fst_eq _ (setEntry_fun_fst i s)]; exact h)]
    rw [List.map_map]
    apply List.map_congr_left
    intro q _
    by_cases hq : (q.1 == i) = true
    · simp [Function.comp, hq]
    · simp [Function.comp, hq]
  · have hset : SimpleCache.setEntry inner i s = inner ++ [(i, s)] := by
      rw [SimpleCache.setEntry, if_neg h]
    rw [hset, SimpleCache.setEntry, if_pos (by rw [List.any_append]; simp)]
    rw [List.map_append]
    have h1 : inner.map (fun p => if p.1 == i then (i, s) else p) = inner := by
      rw [List.map_congr_left (g := id) ?_, List.map_id]
      intro q hq
      have hne : ¬(q.1 == i) = true := fun hqi =>
        h (List.any_eq_true.mpr ⟨q, hq, hqi⟩)
      simp [hne]
    rw [h1]
    simp

/-- Writing the same `(coordinate, dimension, snapshot)` twice leaves the
`SimpleCache` in the same state as writing it once. -/
theorem SimpleCache.set_idem (st : SimpleStore) (c : Int) (dim : String)
    (s : List Int) :
    SimpleCache.set (SimpleCache.set st c dim s) c dim s =
      SimpleCache.set st c dim s := by
  by_cases h : st.any (fun p => p.1 == dim) = true
  · have hset : SimpleCache.set st c dim s
        = st.map (fun p => if p.1 == dim then (p.1, SimpleCache.setEntry p.2 c s) else p) := by
      rw [SimpleCache.set, if_pos h]
    rw [hset, SimpleCache.set,
      if_pos (by rw [any_map_of_fst_eq _ (simpleSet_fun_fst c dim s)]; exact h)]
    rw [List.map_map]
    apply List.map_congr_left
    intro q _
    by_cases hq : (q.1 == dim) = true
    · simp [Function.comp, hq, SimpleCache.setEntry_idem]
    · simp [Function.comp, hq]
  · have hset : SimpleCache.set st c dim s = st ++ [(dim, SimpleCache.setEntry [] c s)] := by
      rw [SimpleCache.set, if_neg h]
    rw [hset, SimpleCache.set, if_pos (by rw [List.any_append]; simp)]
    rw [List.map_append]
    have h1 : st.map (fun p => if p.1 == dim then (p.1, SimpleCache.setEntry p.2 c s) else p)
        = st := by
      rw [List.map_congr_left (g := id) ?_, List.map_id]
      intro q hq
      have hne : ¬(q.1 == dim) = true := fun hqd =>
        h (List.any_eq_true.mpr ⟨q, hq, hqd⟩)
      simp [hne]
    rw [h1]
    simp [SimpleCache.setEntry_idem]

/-! ### Helper lemmas: `SnappingCache` stores -/

/-- `sortStore` produces an ascending-by-coordinate store. -/
theorem sortStore_sorted (d : SnapStore) : StoreSorted (SnappingCache.sortStore d) := by
  have h := @List.sorted_mergeSort Entry
    (fun x y : Entry => x.index ≤ y.index)
    (fun a b c hab hbc => by
      simp only [decide_eq_true_eq] at *
      omega)
    (fun a b => by
      simp only [Bool.or_eq_true, decide_eq_true_eq]
      omega)
    d
  exact h.imp (fun hab => by simpa using hab)

/-- `sortStore` only reorders: the entries are preserved as a multiset. -/
theorem sortStore_perm (d : SnapStore) : (SnappingCache.sortStore d).Perm d :=
  List.mergeSort_perm d _

/-- How `SnappingCache.set` acts on each dimension's store: the touched
dimension gets its old store with the new entry appended, re-sorted; every
other dimension is untouched. -/
theorem SnappingCache.lookupStore_set (st : SnapState) (i : Int) (dim dim' : String)
    (s : List Int) :
    SnappingCache.lookupStore (SnappingCache.set st i dim s) dim' =
      if dim' = dim then
        SnappingCache.sortStore (SnappingCache.lookupStore st dim ++ [⟨i, s⟩])
      else SnappingCache.lookupStore st dim' := by
  have hg : ∀ p : String × SnapStore,
      ((fun p : String × SnapStore =>
        if p.1 == dim then (p.1, SnappingCache.sortStore (p.2 ++ [⟨i, s⟩])) else p) p).1
        = p.1 := by
    intro p
    by_cases hp : (p.1 == dim) = true
    · simp [hp]
    · simp [hp]
  rw [SnappingCache.set]
  by_cases h : st.any (fun p => p.1 == dim) = true
  · rw [if_pos h]
    by_cases hd : dim' = dim
    · subst hd
      rw [if_pos rfl]
      obtain ⟨p, hp, hpd⟩ := find?_eq_some_of_any st _ h
      rw [SnappingCache.lookupStore, find?_map_of_fst_eq _ hg, hp]
      simp only [Option.map_some']
      rw [if_pos hpd]
      rw [SnappingCache.lookupStore, hp]
    · rw [if_neg hd]
      rw [SnappingCache.lookupStore, find?_map_of_fst_eq _ hg]
      cases hfind : st.find? (fun p => p.1 == dim') with
      | none =>
        rw [SnappingCache.lookupStore, hfind]
        rfl
      | some p =>
        have hpd' : (p.1 == dim') = true :=
          List.find?_some (p := fun q : String × SnapStore => q.1 == dim') hfind
        have hne : ¬(p.1 == dim) = true := by
          intro hpd
          exact hd ((eq_of_beq hpd').symm.trans (eq_of_beq hpd))
        simp only [Option.map_some']
        rw [if_neg hne]
        rw [SnappingCache.lookupStore, hfind]
  · rw [if_neg h]
    by_cases hd : dim' = dim
    · subst hd
      rw [if_pos rfl]
      rw [SnappingCache.lookupStore, List.find?_append, find?_eq_none_of_not_any st _ h]
      simp only [Option.none_or, List.find?_cons, beq_self_eq_true]
      rw [SnappingCache.lookupStore, find?_eq_none_of_not_any st _ h]
    · rw [if_neg hd]
      have hfalse : ((dim : String) == dim') = false := by
        cases hb : ((dim : String) == dim') with
        | false => rfl
        | true => exact absurd (eq_of_beq hb).symm hd
      rw [SnappingCache.lookupStore, List.find?_append]
      simp only [List.find?_cons, hfalse, List.find?_nil, Option.or_none]
      rw [SnappingCache.lookupStore]

/-- An empty store makes the snapping lookup miss. -/
theorem snapNearest_nil (t : Int) : snapNearest [] t = none := rfl

/-- A non-empty store always produces a snap (no maximum snap distance). -/
theorem snapNearest_isSome (d : SnapStore) (t : Int) (hne : d ≠ []) :
    ∃ e, snapNearest d t = some e := by
  rw [snapNearest, if_neg (by simpa using hne)]
  dsimp only
  split
  · exact ⟨_, rfl⟩
  · exact ⟨_, rfl⟩

/-! ### Helper lemmas: `getAllCombined` and `getDimensions` -/

/-- When every per-dimension `getCombined` returns without throwing, the
`mapM` inside `getAllCombined` succeeds and its filtered payload is the
dimension list filtered by non-null results. -/
theorem getAllCombined_mapM_ok (gc : String → Except String (Option CombinedResult)) :
    ∀ dims : List String, (∀ dim ∈ dims, (gc dim).isOk = true) →
    ∃ l, (dims.mapM (fun dim => (gc dim).map (fun r => (dim, r)))) = Except.ok l ∧
      l.filterMap (fun p => p.2.map (fun r => (p.1, r))) =
        dims.filterMap (fun dim =>
          match gc dim with
          | Except.ok (some r) => some (dim, r)
          | _ => none) := by
  intro dims
  induction dims with
  | nil => exact fun _ => ⟨[], rfl, rfl⟩
  | cons d ds ih =>
    intro h
    obtain ⟨l, hl, hfm⟩ := ih (fun dim hdim => h dim (List.mem_cons_of_mem d hdim))
    cases hgc : gc d with
    | error e =>
      exfalso
      have hd := h d (List.mem_cons_self d ds)
      rw [hgc] at hd
      simp [Except.isOk, Except.toBool] at hd
    | ok o =>
      refine ⟨(d, o) :: l, ?_, ?_⟩
      · rw [List.mapM_cons, hgc, hl]
        rfl
      · cases o with
        | none => simp [List.filterMap_cons, hgc, hfm]
        | some r => simp [List.filterMap_cons, hgc, hfm]

/-- `getAllCombined` over an arbitrary dimension list, characterized as a
`filterMap`: exactly the dimensions with a non-null `getCombined` survive,
in list order. -/
theorem getAllCombined_eq_filterMap (dims : List String)
    (gc : String → Except String (Option CombinedResult))
    (h : ∀ dim ∈ dims, (gc dim).isOk = true) :
    Cache.getAllCombined dims gc =
      Except.ok (dims.filterMap (fun dim =>
        match gc dim with
        | Except.ok (some r) => some (dim, r)
        | _ => none)) := by
  obtain ⟨l, hl, hfm⟩ := getAllCombined_mapM_ok gc dims h
  rw [Cache.getAllCombined, hl]
  exact congrArg Except.ok hfm

/-- `set` on a `SimpleCache` extends `Object.keys` by the new dimension when
it is absent (in insertion order) and keeps the keys unchanged otherwise;
the declared dimension list plays no role. -/
theorem getDimensions_set_simple (st : SimpleStore) (i : Int) (dim : String)
    (s : List Int) :
    Cache.getDimensions (SimpleCache.set st i dim s) =
      if dim ∈ Cache.getDimensions st then Cache.getDimensions st
      else Cache.getDimensions st ++ [dim] := by
  rw [SimpleCache.set]
  by_cases h : st.any (fun p => p.1 == dim) = true
  · have hmem : dim ∈ Cache.getDimensions st := by
      obtain ⟨p, hp, hpd⟩ := List.any_eq_true.mp h
      rw [Cache.getDimensions]
      exact List.mem_map.mpr ⟨p, hp, eq_of_beq hpd⟩
    rw [if_pos h, if_pos hmem, Cache.getDimensions, Cache.getDimensions, List.map_map]
    apply List.map_congr_left
    intro p _
    simp only [Function.comp]
    split <;> rfl
  · have hmem : dim ∉ Cache.getDimensions st := by
      intro hd
      obtain ⟨p, hp, hpd⟩ := List.mem_map.mp hd
      exact h (List.any_eq_true.mpr ⟨p, hp, by simp [hpd]⟩)
    rw [if_neg h, if_neg hmem, Cache.getDimensions, Cache.getDimensions, List.map_append]
    rfl

/-- `set` on a `SnappingCache` extends `Object.keys` by the new dimension
when absent and keeps the keys unchanged otherwise. -/
theorem getDimensions_set_snapping (st : SnapState) (i : Int) (dim : String)
    (s : List Int) :
    Cache.getDimensions (SnappingCache.set st i dim s) =
      if dim ∈ Cache.getDimensions st then Cache.getDimensions st
      else Cache.getDimensions st ++ [dim] := by
  have hg : ∀ p : String × SnapStore,
      ((fun p : String × SnapStore =>
        if p.1 == dim then (p.1, SnappingCache.sortStore (p.2 ++ [⟨i, s⟩])) else p) p).1
        = p.1 := by
    intro p
    by_cases hp : (p.1 == dim) = true
    · simp [hp]
    · simp [hp]
  rw [SnappingCache.set]
  by_cases h : st.any (fun p => p.1 == dim) = true
  · have hmem : dim ∈ Cache.getDimensions st := by
      obtain ⟨p, hp, hpd⟩ := List.any_eq_true.mp h
      rw [Cache.getDimensions]
      exact List.mem_map.mpr ⟨p, hp, eq_of_beq hpd⟩
    rw [if_pos h, if_pos hmem, Cache.getDimensions, Cache.getDimensions, List.map_map]
    apply List.map_congr_left
    intro p _
    simp only [Function.comp]
    split <;> rfl
  · have hmem : dim ∉ Cache.getDimensions st := by
      intro hd
      obtain ⟨p, hp, hpd⟩ := List.mem_map.mp hd
      exact h (List.any_eq_true.mpr ⟨p, hp, by simp [hpd]⟩)
    rw [if_neg h, if_neg hmem, Cache.getDimensions, Cache.getDimensions, List.map_append]
    rfl

/-! ### Claims -/

/-- C1: for a `SnappingCache` whose store for dimension `d` is non-empty
(and sorted, as `set` maintains), the private `get(target, d)` returns a
stored entry whose coordinate minimizes the absolute distance to the
target, and an equally-close pair resolves to the lower coordinate. -/
theorem C1_snapping_get_nearest (st : SnapState) (dim : String) (t : Int)
    (hsort : StoreSorted (SnappingCache.lookupStore st dim))
    (hne : SnappingCache.lookupStore st dim ≠ []) :
    ∃ e, SnappingCache.get st t dim = some e ∧
      e ∈ SnappingCache.lookupStore st dim ∧
      ∀ e' ∈ SnappingCache.lookupStore st dim,
        (t - e.index).natAbs < (t - e'.index).natAbs ∨
        ((t - e.index).natAbs = (t - e'.index).natAbs ∧ e.index ≤ e'.index) :=
  snapNearest_nearest _ t hsort hne

/-- Witness for C1 on the spec's `[10, 20, 30]` store: target 24 snaps to
20 (distance 4 vs 6) and the equidistant target 25 also snaps to 20. -/
theorem C1_witness :
    (∃ e, SnappingCache.get snapExample 24 "d" = some e ∧
      e ∈ SnappingCache.lookupStore snapExample "d" ∧
      ∀ e' ∈ SnappingCache.lookupStore snapExample "d",
        ((24 : Int) - e.index).natAbs < ((24 : Int) - e'.index).natAbs ∨
        (((24 : Int) - e.index).natAbs = ((24 : Int) - e'.index).natAbs ∧
          e.index ≤ e'.index)) ∧
    SnappingCache.get snapExample 24 "d" = some ⟨20, [2]⟩ ∧
    SnappingCache.get snapExample 25 "d" = some ⟨20, [2]⟩ :=
  ⟨C1_snapping_get_nearest snapExample "d" 24 (by decide) (by decide),
    by decide, by decide⟩

/-- C4: `combineRanges` throws exactly when the lengths differ; on matching
lengths it returns `data[i] = high[i] - low[i]` for every bucket, and it
still returns normally when some entry is negative. -/
theorem C4_combineRanges_spec (low high : List Int) :
    ((∃ msg, combineRanges low high = Except.error msg) ↔
      low.length ≠ high.length) ∧
    (low.length = high.length →
      combineRanges low high =
        Except.ok (List.zipWith (fun l r => r - l) low high) ∧
      ∀ i (h1 : i < low.length) (h2 : i < high.length),
        (List.zipWith (fun l r => r - l) low high).getD i 0 = high[i] - low[i]) := by
  by_cases hlen : low.length = high.length
  · have hok := combineRanges_eq_zipWith low high hlen
    refine ⟨⟨fun hex => ?_, fun hne => absurd hlen hne⟩, fun _ => ⟨hok, ?_⟩⟩
    · obtain ⟨msg, hmsg⟩ := hex
      rw [hok] at hmsg
      exact Except.noConfusion hmsg
    · intro i h1 h2
      have hz : i < (List.zipWith (fun l r => r - l) low high).length := by
        rw [List.length_zipWith]
        omega
      rw [List.getD_eq_getElem _ _ hz, List.getElem_zipWith]
  · refine ⟨⟨fun _ => hlen, fun _ => ⟨_, by rw [combineRanges, if_pos hlen]⟩⟩,
      fun h => absurd h hlen⟩

/-- Witness for C4: equal lengths `[5]`, `[3]` produce the negative-valued
result `[-2]` without failing. -/
theorem C4_witness :
    ([5] : List Int).length = ([3] : List Int).length ∧
    (combineRanges [5] [3] =
        Except.ok (List.zipWith (fun l r => r - l) ([5] : List Int) [3]) ∧
      ∀ i (h1 : i < ([5] : List Int).length) (h2 : i < ([3] : List Int).length),
        (List.zipWith (fun l r => r - l) ([5] : List Int) [3]).getD i 0 =
          ([3] : List Int)[i] - ([5] : List Int)[i]) ∧
    combineRanges [5] [3] = Except.ok [-2] :=
  ⟨rfl, (C4_combineRanges_spec [5] [3]).2 rfl, by decide⟩

/-- C9: on a `SimpleCache`, `set` at an occupied slot silently overwrites
(the exact lookup then returns the newest snapshot), and two identical
`set` calls leave the same state as one. -/
theorem C9_exact_overwrite (st : SimpleStore) (c : Int) (dim : String)
    (s1 s2 : List Int) (_h : SimpleCache.get st c dim = some s1) :
    SimpleCache.get (SimpleCache.set st c dim s2) c dim = some s2 ∧
    SimpleCache.set (SimpleCache.set st c dim s2) c dim s2 =
      SimpleCache.set st c dim s2 :=
  ⟨SimpleCache.get_set_same st c dim s2, SimpleCache.set_idem st c dim s2⟩

/-- Witness for C9: overwrite `[1, 2]` with `[7, 8]` at `(0, "a")`. -/
theorem C9_witness :
    SimpleCache.get simpleExample 0 "a" = some [1, 2] ∧
    (SimpleCache.get (SimpleCache.set simpleExample 0 "a" [7, 8]) 0 "a" = some [7, 8] ∧
      SimpleCache.set (SimpleCache.set simpleExample 0 "a" [7, 8]) 0 "a" [7, 8] =
        SimpleCache.set simpleExample 0 "a" [7, 8]) :=
  ⟨by decide, C9_exact_overwrite simpleExample 0 "a" [1, 2] [7, 8] (by decide)⟩

/-- C10: immediately after `set(c, d, s)`, the zero-width exact query
`getCombined(c, c, d)` succeeds with range `(c, c)` and all-zero data —
the exact strategy does not reject zero-width intervals. -/
theorem C10_zero_width_exact (st : SimpleStore) (c : Int) (dim : String)
    (s : List Int) :
    SimpleCache.getCombined (SimpleCache.set st c dim s) c c dim =
      Except.ok (some ⟨List.replicate s.length 0, (c, c)⟩) := by
  have hget := SimpleCache.get_set_same st c dim s
  simp only [SimpleCache.getCombined, hget]
  rw [combineRanges_eq_zipWith s s rfl, zipWith_sub_self]
  rfl

/-- C3: on a `SimpleCache`, `getCombined` succeeds exactly when both
boundary coordinates hold stored snapshots (equal-length, per the data
model invariant); the result keeps the requested range unchanged and its
data is the elementwise difference; any miss yields null, not a throw. -/
theorem C3_exact_getCombined (st : SimpleStore) (a b : Int) (dim : String) :
    ((SimpleCache.get st a dim = none ∨ SimpleCache.get st b dim = none) →
      SimpleCache.getCombined st a b dim = Except.ok none) ∧
    (∀ low high, SimpleCache.get st a dim = some low →
      SimpleCache.get st b dim = some high → low.length = high.length →
      SimpleCache.getCombined st a b dim =
        Except.ok (some ⟨List.zipWith (fun l r => r - l) low high, (a, b)⟩)) ∧
    (∀ r, SimpleCache.getCombined st a b dim = Except.ok (some r) →
      (SimpleCache.get st a dim).isSome = true ∧
      (SimpleCache.get st b dim).isSome = true) := by
  refine ⟨?_, ?_, ?_⟩
  · intro hmiss
    cases ha : SimpleCache.get st a dim with
    | none => simp [SimpleCache.getCombined, ha]
    | some low =>
      cases hb : SimpleCache.get st b dim with
      | none => simp [SimpleCache.getCombined, ha, hb]
      | some high =>
        rcases hmiss with h | h
        · exact absurd ha (by rw [h]; exact fun hc => Option.noConfusion hc)
        · exact absurd hb (by rw [h]; exact fun hc => Option.noConfusion hc)
  · intro low high ha hb hlen
    simp only [SimpleCache.getCombined, ha, hb]
    rw [combineRanges_eq_zipWith low high hlen]
    rfl
  · intro r hr
    cases ha : SimpleCache.get st a dim with
    | none => simp [SimpleCache.getCombined, ha] at hr
    | some low =>
      cases hb : SimpleCache.get st b dim with
      | none => simp [SimpleCache.getCombined, ha, hb] at hr
      | some high => exact ⟨rfl, rfl⟩

/-- Witness for C3 on the spec's scenario store: both boundaries stored at
0 and 100 on `"a"` gives `{data: [40, 60], range: (0, 100)}`, and the
missing boundary 50 gives null. -/
theorem C3_witness :
    (SimpleCache.get simpleScenario 0 "a" = some [10, 20] ∧
      SimpleCache.get simpleScenario 100 "a" = some [50, 80] ∧
      ([10, 20] : List Int).length = ([50, 80] : List Int).length) ∧
    SimpleCache.getCombined simpleScenario 0 100 "a" =
      Except.ok (some ⟨List.zipWith (fun l r => r - l) [10, 20] [50, 80], (0, 100)⟩) ∧
    (SimpleCache.get simpleScenario 0 "a" = none ∨
      SimpleCache.get simpleScenario 50 "a" = none) ∧
    SimpleCache.getCombined simpleScenario 0 50 "a" = Except.ok none :=
  ⟨⟨by decide, by decide, rfl⟩,
    (C3_exact_getCombined simpleScenario 0 100 "a").2.1 [10, 20] [50, 80]
      (by decide) (by decide) rfl,
    Or.inr (by decide),
    (C3_exact_getCombined simpleScenario 0 50 "a").1 (Or.inr (by decide))⟩

/-- C2: on a `SnappingCache`, `getCombined` returns null for an empty
store; otherwise both boundaries snap, and the call returns null when the
snapped coordinates are equal or inverted (even for `start < end`) and the
combined delta over the snapped range when they are strictly increasing. -/
theorem C2_snapping_getCombined (st : SnapState) (a b : Int) (dim : String) :
    (SnappingCache.lookupStore st dim = [] →
      SnappingCache.getCombined st a b dim = Except.ok none) ∧
    (SnappingCache.lookupStore st dim ≠ [] →
      ∃ low high, SnappingCache.get st a dim = some low ∧
        SnappingCache.get st b dim = some high ∧
        (high.index ≤ low.index →
          SnappingCache.getCombined st a b dim = Except.ok none) ∧
        (low.index < high.index → low.data.length = high.data.length →
          SnappingCache.getCombined st a b dim =
            Except.ok (some ⟨List.zipWith (fun l r => r - l) low.data high.data,
              (low.index, high.index)⟩))) := by
  constructor
  · intro hempty
    have ha : SnappingCache.get st a dim = none := by
      rw [SnappingCache.get, hempty]
      rfl
    simp [SnappingCache.getCombined, ha]
  · intro hne
    obtain ⟨low, hlow⟩ := snapNearest_isSome (SnappingCache.lookupStore st dim) a hne
    obtain ⟨high, hhigh⟩ := snapNearest_isSome (SnappingCache.lookupStore st dim) b hne
    refine ⟨low, high, hlow, hhigh, ?_, ?_⟩
    · intro hle
      simp only [SnappingCache.getCombined, SnappingCache.get, hlow, hhigh]
      rw [if_neg (by omega)]
    · intro hlt hlen
      simp only [SnappingCache.getCombined, SnappingCache.get, hlow, hhigh]
      rw [if_pos hlt, combineRanges_eq_zipWith low.data high.data hlen]
      rfl

/-- Witness for C2 on the spec's P2 store: `getCombined(21, 24, "d")` snaps
both ends to 20 and returns null although `21 < 24`; `getCombined(5, 24, "d")`
snaps to 10 and 20 and returns the delta over `(10, 20)`. -/
theorem C2_witness :
    SnappingCache.lookupStore snapExample "d" ≠ [] ∧
    (∃ low high, SnappingCache.get snapExample 21 "d" = some low ∧
      SnappingCache.get snapExample 24 "d" = some high ∧
      (high.index ≤ low.index →
        SnappingCache.getCombined snapExample 21 24 "d" = Except.ok none) ∧
      (low.index < high.index → low.data.length = high.data.length →
        SnappingCache.getCombined snapExample 21 24 "d" =
          Except.ok (some ⟨List.zipWith (fun l r => r - l) low.data high.data,
            (low.index, high.index)⟩))) ∧
    SnappingCache.getCombined snapExample 21 24 "d" = Except.ok none ∧
    SnappingCache.getCombined snapExample 5 24 "d" =
      Except.ok (some ⟨[1], (10, 20)⟩) :=
  ⟨by decide, ((C2_snapping_getCombined snapExample 21 24 "d").2 (by decide)),
    by decide, by decide⟩

/-- Counterexample to C5 as stated: for a cache whose constructor-declared
dimension list is empty, `hasFullData` is `true` (the loop body never
runs) even immediately after `invalidate()`, although the claim demands
`false` for every cache instance and coordinate. -/
theorem C5_counterexample :
    SimpleCache.hasFullData []
      (Cache.invalidate (SimpleCache.set [] 0 "a" [1, 2])) 0 = true := by decide

/-- C5 (amended): after `invalidate()` both strategies answer every
`getCombined` with null, and — provided the declared dimension list is
non-empty — `hasFullData` is false at every coordinate. -/
theorem C5_invalidate_total (dims : List String) (stS : SimpleStore)
    (stN : SnapState) (a b i : Int) (dim : String) (hdims : dims ≠ []) :
    SimpleCache.getCombined (Cache.invalidate stS) a b dim = Except.ok none ∧
    SnappingCache.getCombined (Cache.invalidate stN) a b dim = Except.ok none ∧
    SimpleCache.hasFullData dims (Cache.invalidate stS) i = false ∧
    SnappingCache.hasFullData dims (Cache.invalidate stN) i = false := by
  refine ⟨rfl, rfl, ?_, ?_⟩
  · cases dims with
    | nil => exact absurd rfl hdims
    | cons d ds =>
      simp [SimpleCache.hasFullData, SimpleCache.get, Cache.invalidate]
  · cases dims with
    | nil => exact absurd rfl hdims
    | cons d ds =>
      simp [SnappingCache.hasFullData, SnappingCache.get,
        SnappingCache.lookupStore, Cache.invalidate, snapNearest]

/-- Witness for the amended C5 at the scenario states and dimension list
`["a"]`. -/
theorem C5_witness :
    (["a"] : List String) ≠ [] ∧
    (SimpleCache.getCombined (Cache.invalidate simpleScenario) 0 100 "a" =
        Except.ok none ∧
      SnappingCache.getCombined (Cache.invalidate snapScenario) 0 100 "a" =
        Except.ok none ∧
      SimpleCache.hasFullData ["a"] (Cache.invalidate simpleScenario) 0 = false ∧
      SnappingCache.hasFullData ["a"] (Cache.invalidate snapScenario) 0 = false) :=
  ⟨by decide,
    C5_invalidate_total ["a"] simpleScenario snapScenario 0 100 0 "a" (by decide)⟩

/-- C6: on both strategies `hasFullData(c)` holds exactly when every
declared dimension has a stored snapshot at exactly coordinate `c`; for
the snapping strategy an entry with coordinate exactly `c` must exist (it
is then selected by the snap), and a merely nearby coordinate never makes
`hasFullData` true. -/
theorem C6_hasFullData_exact (dims : List String) (stS : SimpleStore)
    (stN : SnapState) (c : Int)
    (hsort : ∀ dim ∈ dims, StoreSorted (SnappingCache.lookupStore stN dim)) :
    (SimpleCache.hasFullData dims stS c = true ↔
      ∀ dim ∈ dims, (SimpleCache.get stS c dim).isSome = true) ∧
    (SnappingCache.hasFullData dims stN c = true ↔
      ∀ dim ∈ dims, ∃ e ∈ SnappingCache.lookupStore stN dim, e.index = c) := by
  constructor
  · rw [SimpleCache.hasFullData, List.all_eq_true]
  · rw [SnappingCache.hasFullData, List.all_eq_true]
    constructor
    · intro h dim hdim
      have hd := h dim hdim
      cases hget : SnappingCache.get stN c dim with
      | none =>
        rw [hget] at hd
        exact absurd hd (by simp)
      | some item =>
        rw [hget] at hd
        have hic : item.index = c := by simpa using hd
        have hne : SnappingCache.lookupStore stN dim ≠ [] := by
          intro hnil
          rw [SnappingCache.get, hnil, snapNearest_nil] at hget
          exact Option.noConfusion hget
        obtain ⟨e, he, hmem, _⟩ := snapNearest_nearest _ c (hsort dim hdim) hne
        rw [SnappingCache.get] at hget
        rw [hget] at he
        obtain rfl := Option.some.inj he
        exact ⟨item, hmem, hic⟩
    · intro h dim hdim
      obtain ⟨e, he, hec⟩ := h dim hdim
      have hne : SnappingCache.lookupStore stN dim ≠ [] := by
        intro hnil
        rw [hnil] at he
        exact absurd he (List.not_mem_nil e)
      obtain ⟨e', he', _, hmin⟩ := snapNearest_nearest _ c (hsort dim hdim) hne
      have hd := hmin e he
      have he'c : e'.index = c := by
        rcases hd with hlt | ⟨heq, _⟩
        · rw [hec] at hlt
          omega
        · rw [hec] at heq
          omega
      rw [SnappingCache.get, he']
      simp [he'c]

/-- Witness for C6 on the scenario states: `hasFullData(0)` holds on both
caches, while the merely-nearby coordinate 50 (present only on `"a"` of
the snapping cache) fails on both. -/
theorem C6_witness :
    (∀ dim ∈ (["a", "b"] : List String),
      StoreSorted (SnappingCache.lookupStore snapScenario dim)) ∧
    ((SimpleCache.hasFullData ["a", "b"] simpleScenario 50 = true ↔
      ∀ dim ∈ (["a", "b"] : List String),
        (SimpleCache.get simpleScenario 50 dim).isSome = true) ∧
     (SnappingCache.hasFullData ["a", "b"] snapScenario 50 = true ↔
      ∀ dim ∈ (["a", "b"] : List String),
        ∃ e ∈ SnappingCache.lookupStore snapScenario dim, e.index = 50)) ∧
    SimpleCache.hasFullData ["a", "b"] simpleScenario 0 = true ∧
    SnappingCache.hasFullData ["a", "b"] snapScenario 0 = true ∧
    SimpleCache.hasFullData ["a", "b"] simpleScenario 50 = false ∧
    SnappingCache.hasFullData ["a", "b"] snapScenario 50 = false :=
  ⟨by decide,
    C6_hasFullData_exact ["a", "b"] simpleScenario snapScenario 50 (by decide),
    by decide, by decide, by decide, by decide⟩

/-- Induction core for C7: folding `set` operations over any starting state
keeps every per-dimension store sorted, and the final store of a dimension
is a permutation of the starting store plus one appended entry per `set`
on that dimension. -/
theorem snap_applyOps_invariant (ops : List (Int × String × List Int)) :
    ∀ (st : SnapState) (dim : String),
      StoreSorted (SnappingCache.lookupStore st dim) →
      StoreSorted (SnappingCache.lookupStore
        (ops.foldl (fun s op => SnappingCache.set s op.1 op.2.1 op.2.2) st) dim) ∧
      (SnappingCache.lookupStore
          (ops.foldl (fun s op => SnappingCache.set s op.1 op.2.1 op.2.2) st) dim).Perm
        (SnappingCache.lookupStore st dim ++
          (ops.filter (fun op => op.2.1 == dim)).map (fun op => ⟨op.1, op.2.2⟩)) := by
  induction ops with
  | nil =>
    intro st dim hs
    exact ⟨hs, by simp⟩
  | cons op ops ih =>
    intro st dim hs
    rw [List.foldl_cons]
    have hlk := SnappingCache.lookupStore_set st op.1 op.2.1 dim op.2.2
    by_cases hd : dim = op.2.1
    · have hsorted' :
          StoreSorted (SnappingCache.lookupStore
            (SnappingCache.set st op.1 op.2.1 op.2.2) dim) := by
        rw [hlk, if_pos hd]
        exact sortStore_sorted _
      obtain ⟨h1, h2⟩ := ih (SnappingCache.set st op.1 op.2.1 op.2.2) dim hsorted'
      refine ⟨h1, ?_⟩
      have hbeq : (op.2.1 == dim) = true := by
        rw [hd]
        exact beq_self_eq_true _
      have hfilter : (op :: ops).filter (fun op => op.2.1 == dim)
          = op :: ops.filter (fun op => op.2.1 == dim) := by
        simp [List.filter_cons, hbeq]
      have hperm1 : (SnappingCache.lookupStore
          (SnappingCache.set st op.1 op.2.1 op.2.2) dim).Perm
          (SnappingCache.lookupStore st dim ++ [(⟨op.1, op.2.2⟩ : Entry)]) := by
        rw [hlk, if_pos hd, hd]
        exact sortStore_perm _
      rw [hfilter, List.map_cons]
      refine h2.trans ?_
      refine (hperm1.append_right _).trans ?_
      rw [List.append_assoc]
      exact List.Perm.refl _
    · have hsorted' :
          StoreSorted (SnappingCache.lookupStore
            (SnappingCache.set st op.1 op.2.1 op.2.2) dim) := by
        rw [hlk, if_neg hd]
        exact hs
      obtain ⟨h1, h2⟩ := ih (SnappingCache.set st op.1 op.2.1 op.2.2) dim hsorted'
      refine ⟨h1, ?_⟩
      have hbeq : (op.2.1 == dim) = false := by
        cases hb : (op.2.1 == dim) with
        | false => rfl
        | true => exact absurd (eq_of_beq hb).symm hd
      rw [List.filter_cons, hbeq]
      rw [hlk, if_neg hd] at h2
      exact h2

/-- C7: after any sequence of `set` calls on a fresh `SnappingCache`, every
dimension's store is sorted ascending by coordinate, and its entries are
exactly the entries `set` pushed for that dimension (one appended per call,
never overwritten, so repeated coordinates accumulate duplicates). -/
theorem C7_snapping_sorted_append (ops : List (Int × String × List Int))
    (dim : String) :
    StoreSorted (SnappingCache.lookupStore (SnappingCache.applyOps ops) dim) ∧
    (SnappingCache.lookupStore (SnappingCache.applyOps ops) dim).Perm
      ((ops.filter (fun op => op.2.1 == dim)).map (fun op => ⟨op.1, op.2.2⟩)) := by
  have h := snap_applyOps_invariant ops [] dim (List.Pairwise.nil)
  rw [SnappingCache.applyOps]
  exact ⟨h.1, by simpa using h.2⟩

/-- C8: for both strategies `set` stores data under any dimension name —
the constructor-declared list never appears in `set` — extending the
store's key list in first-insertion order; and `getAllCombined` attempts
`getCombined` for every dimension of the internal store, keeping exactly
the non-null results, in store (first-insertion) order. The operations are
pure: the cache value is left untouched. -/
theorem C8_getAllCombined_spec (stS : SimpleStore) (stN : SnapState)
    (i a b : Int) (dim : String) (s : List Int)
    (hS : ∀ d ∈ Cache.getDimensions stS,
      (SimpleCache.getCombined stS a b d).isOk = true)
    (hN : ∀ d ∈ Cache.getDimensions stN,
      (SnappingCache.getCombined stN a b d).isOk = true) :
    Cache.getDimensions (SimpleCache.set stS i dim s) =
      (if dim ∈ Cache.getDimensions stS then Cache.getDimensions stS
       else Cache.getDimensions stS ++ [dim]) ∧
    Cache.getDimensions (SnappingCache.set stN i dim s) =
      (if dim ∈ Cache.getDimensions stN then Cache.getDimensions stN
       else Cache.getDimensions stN ++ [dim]) ∧
    SimpleCache.getAllCombined stS a b =
      Except.ok ((Cache.getDimensions stS).filterMap (fun d =>
        match SimpleCache.getCombined stS a b d with
        | Except.ok (some r) => some (d, r)
        | _ => none)) ∧
    SnappingCache.getAllCombined stN a b =
      Except.ok ((Cache.getDimensions stN).filterMap (fun d =>
        match SnappingCache.getCombined stN a b d with
        | Except.ok (some r) => some (d, r)
        | _ => none)) :=
  ⟨getDimensions_set_simple stS i dim s,
    getDimensions_set_snapping stN i dim s,
    getAllCombined_eq_filterMap _ _ hS,
    getAllCombined_eq_filterMap _ _ hN⟩

/-- Witness for C8 at the scenario states, writing a brand-new dimension
`"c"` (absent from the declared list `["a", "b"]`). -/
theorem C8_witness :
    (∀ d ∈ Cache.getDimensions simpleScenario,
      (SimpleCache.getCombined simpleScenario 0 100 d).isOk = true) ∧
    (∀ d ∈ Cache.getDimensions snapScenario,
      (SnappingCache.getCombined snapScenario 0 100 d).isOk = true) ∧
    (Cache.getDimensions (SimpleCache.set simpleScenario 7 "c" [0, 0]) =
      (if "c" ∈ Cache.getDimensions simpleScenario
       then Cache.getDimensions simpleScenario
       else Cache.getDimensions simpleScenario ++ ["c"]) ∧
     Cache.getDimensions (SnappingCache.set snapScenario 7 "c" [0, 0]) =
      (if "c" ∈ Cache.getDimensions snapScenario
       then Cache.getDimensions snapScenario
       else Cache.getDimensions snapScenario ++ ["c"]) ∧
     SimpleCache.getAllCombined simpleScenario 0 100 =
      Except.ok ((Cache.getDimensions simpleScenario).filterMap (fun d =>
        match SimpleCache.getCombined simpleScenario 0 100 d with
        | Except.ok (some r) => some (d, r)
        | _ => none)) ∧
     SnappingCache.getAllCombined snapScenario 0 100 =
      Except.ok ((Cache.getDimensions snapScenario).filterMap (fun d =>
        match SnappingCache.getCombined snapScenario 0 100 d with
        | Except.ok (some r) => some (d, r)
        | _ => none))) :=
  ⟨by decide, by decide,
    C8_getAllCombined_spec simpleScenario snapScenario 7 0 100 "c" [0, 0]
      (by decide) (by decide)⟩
